import Mathlib

/-!
Verification development for `bsonsplit` (src/src/main.rs): a tool that reads a
back-to-back stream of BSON documents and redistributes them round-robin into
N output files, with buffered writes flushed periodically and once at the end.

Modelling conventions:
* Byte streams are `List UInt8`; the reader cursor is threaded explicitly
  (`from_reader` returns the decoded document together with the rest of the
  stream, mirroring the cursor advance on the `BufReader`).
* The `bson` crate is an external dependency whose sources are not part of this
  repository; `from_reader` is therefore modelled from the spec (see its doc
  comment). Everything else is translated from `src/src/main.rs`.
* Fallible I/O on the output side (document writes, per-sink flushes) is
  modelled with an oracle environment `Env` saying which write / flush calls
  succeed; `Env.allOk` is the fault-free environment.
* `i64` arithmetic on the `writes` counter is modelled with `Int` (the counter
  only ever grows by 1 per document, far from the `i64` range).
-/

namespace BsonSplit

/-- `static AUTO_FLUSH: i64 = 100_000;` (src/src/main.rs line 10). -/
def AUTO_FLUSH : Int := 100000

/-- Model of `std::io::ErrorKind`, keeping only the distinction that
`process_doc` inspects: `UnexpectedEof` versus everything else. -/
inductive IoErrorKind where
  | unexpectedEof
  | otherKind
deriving DecidableEq, Repr

/-- Model of `bson::de::Error`: the `IoError` variant carries the kind of the
underlying I/O error; `truncated` stands for the malformed-stream failure when
the stream ends mid-document, `malformed` for any structural decode failure.
Both of the latter land in the catch-all `_` arm of `process_doc`. -/
inductive BsonDeError where
  | ioError (kind : IoErrorKind)
  | truncated
  | malformed
deriving DecidableEq, Repr

/-- A BSON document, opaque to this program: only its exact encoded bytes are
relevant (the core never inspects field contents). -/
structure BDoc where
  bytes : List UInt8
deriving DecidableEq, Repr

/-- The 4-byte little-endian length prefix of a BSON document, as a `Nat`. -/
def readLenLE (b0 b1 b2 b3 : UInt8) : Nat :=
  b0.toNat + 256 * b1.toNat + 65536 * b2.toNat + 16777216 * b3.toNat

/-- The length a (would-be) document at the head of `input` declares for
itself: its first four bytes read little-endian. -/
def declaredLen (input : List UInt8) : Nat :=
  readLenLE (input.getD 0 0) (input.getD 1 0) (input.getD 2 0) (input.getD 3 0)

/-- Modelled from the spec: `bson::Document::from_reader` (the `bson` crate is
an external dependency; its sources are not in this repository). Per the spec:
each document is self-delimiting via a 4-byte little-endian total-length prefix
followed by BSON-encoded fields and a trailing terminator byte; "if the cursor
is at the very start of a would-be document and the underlying stream has no
more bytes (the attempt to read the document's leading length field immediately
hits end-of-input)" the read fails with `UnexpectedEof` (which `process_doc`
turns into clean end-of-stream); a stream that ends mid-document (fewer bytes
available than the document's declared length) is a malformed-stream error, and
any structural decode failure (declared length below the 5-byte minimum, or a
missing terminator byte) is a decode error. On success the cursor advances
exactly past the document's declared extent. -/
def from_reader (input : List UInt8) : Except BsonDeError (BDoc × List UInt8) :=
  if input.length = 0 then .error (.ioError .unexpectedEof)
  else if input.length < 4 then .error .truncated
  else if declaredLen input < 5 then .error .malformed
  else if input.length < declaredLen input then .error .truncated
  else if (input.take (declaredLen input)).getLast? = some 0 then
    .ok (⟨input.take (declaredLen input)⟩, input.drop (declaredLen input))
  else .error .malformed

/-- src/src/main.rs lines 30-44: classify one decode result. An I/O error of
kind `UnexpectedEof` is clean end-of-stream (`none`); any other I/O error or
any other BSON error aborts with a contextualised message. The decoded payload
is opaque to this function (in Rust it is the `Document`; here it is
instantiated with the document together with the advanced cursor, since the
embedding threads the reader state explicitly). -/
def process_doc {α : Type} (doc : Except BsonDeError α) : Except String (Option α) :=
  match doc with
  | .ok doc => .ok (some doc)
  | .error e =>
    match e with
    | .ioError k =>
      if k = IoErrorKind.unexpectedEof then .ok none
      else .error "IO error"
    | _ => .error "BSON error"

theorem process_doc_ok_some {α : Type} {r : Except BsonDeError α} {a : α}
    (h : process_doc r = .ok (some a)) : r = .ok a := by
  cases r with
  | ok b => exact congrArg Except.ok (Option.some.inj (Except.ok.inj h))
  | error e =>
    cases e with
    | ioError k =>
      cases k with
      | unexpectedEof => exact Option.noConfusion (Except.ok.inj h)
      | otherKind => exact Except.noConfusion h
    | truncated => exact Except.noConfusion h
    | malformed => exact Except.noConfusion h

theorem from_reader_rest_lt {input rest : List UInt8} {d : BDoc}
    (h : from_reader input = .ok (d, rest)) : rest.length < input.length := by
  unfold from_reader at h
  split_ifs at h with h0 h4 hL hlen hterm <;> try exact Except.noConfusion h
  injection h with h2
  injection h2 with hd hr
  rw [← hr, List.length_drop]
  omega

/-- The sequence of documents successfully decoded from the stream, together
with how the decode loop's document source ends: cleanly (`.ok ()`, from an
`UnexpectedEof` at a document boundary) or with a fatal decode error. This is
the decoder half of the loop at src/src/main.rs lines 95-109, i.e. the repeated
`process_doc(Document::from_reader(&mut f))?`; decoding has no effect on the
output sinks, so it is factored out of the writing half (`runDocs` below). -/
def docStream (input : List UInt8) : List BDoc × Except String Unit :=
  match h : process_doc (from_reader input) with
  | .ok (some (d, rest)) =>
    let s := docStream rest
    (d :: s.1, s.2)
  | .ok none => ([], .ok ())
  | .error msg => ([], .error msg)
termination_by input.length
decreasing_by
  exact from_reader_rest_lt (process_doc_ok_some h)

/-- One output sink: the created file plus its `BufWriter`. `flushed` are the
documents already flushed to the file, `buffered` those still sitting in the
writer's buffer. (The implicit spill of a full 8 KiB `BufWriter` buffer is not
modelled; only the explicit flush discipline of the program is.) -/
structure Sink where
  flushed : List BDoc
  buffered : List BDoc
deriving DecidableEq, Repr

/-- All documents this sink has received, in order. -/
def Sink.docs (s : Sink) : List BDoc := s.flushed ++ s.buffered

/-- `BufWriter::flush`: move everything buffered to the file. -/
def Sink.flush (s : Sink) : Sink := ⟨s.flushed ++ s.buffered, []⟩

/-- `doc.to_writer(&mut buf)`: append the re-encoded document to the buffer.
The decoder/encoder pair is content-preserving, so the re-encoded bytes are
the document's bytes. -/
def Sink.write (s : Sink) (d : BDoc) : Sink := ⟨s.flushed, s.buffered ++ [d]⟩

/-- Fault-injection oracle for the fallible output operations: `writeOk w`
says whether the `doc.to_writer` call made when the `writes` counter equals
`w` succeeds, `flushOk f` whether the `f`-th individual sink flush (counted
across the whole run) succeeds. -/
structure Env where
  writeOk : Int → Bool
  flushOk : Nat → Bool

/-- The fault-free environment: every write and flush succeeds. -/
def Env.allOk : Env := ⟨fun _ => true, fun _ => true⟩

/-- An environment where every flush fails (e.g. the disk filled up). -/
def Env.noFlush : Env := ⟨fun _ => true, fun _ => false⟩

/-- src/src/main.rs lines 63-68: flush every sink in order, aborting on the
first failure (sinks flushed earlier in the pass keep their flushed state, the
rest are untouched). Returns the result, the sinks after the in-place
mutation, and the advanced flush-call counter. -/
def flush_all (env : Env) (fl : Nat) (bufs : List Sink) :
    Except String Unit × List Sink × Nat :=
  match bufs with
  | [] => (.ok (), [], fl)
  | s :: rest =>
    if env.flushOk fl then
      let r := flush_all env (fl + 1) rest
      (r.1, s.flush :: r.2.1, r.2.2)
    else (.error "Failed to flush", s :: rest, fl + 1)

/-- `validate` (src/src/main.rs lines 23-28): `true` means the process exits
with a usage error (`split must be at least 1`). `split : Nat` models the
`u32` flag value. -/
def validate (split : Nat) : Bool := split < 1

/-- src/src/main.rs lines 46-61: the output filenames
`format!("{}-{}-{}.bson", prefix, runtime, i)` for `i in 1..=split`. The
`runtime` epoch-millis value is obtained from `SystemTime::now()` exactly once
per run, so it is a single parameter shared by every filename. (`stem` is the
prefix derived from the input file's base name; `File::create` failures are
environmental and not modelled.) -/
def create_files (stem : String) (runtime : Nat) (split : Nat) : List String :=
  (List.range split).map
    (fun i => stem ++ "-" ++ toString runtime ++ "-" ++ toString (i + 1) ++ ".bson")

/-- The mutable state of the main loop (src/src/main.rs lines 87-109): the
sinks, how many times `cycle.next()` has been called, the `writes : i64`
counter, and the running count of individual sink-flush calls (the `Env`
oracle position). -/
structure LoopState where
  output : List Sink
  cycleIdx : Nat
  writes : Int
  flushes : Nat
deriving DecidableEq, Repr

/-- `(0..n).cycle()` as a stream: the `k`-th call to `.next()` yields
`k % n`, or `None` forever when the range is empty. -/
def cycleNext (n : Nat) (k : Nat) : Option Nat :=
  if n = 0 then none else some (k % n)

/-- A fatal outcome of the loop: either the `unwrap()` on the cycle iterator
panicked (only possible when there are no sinks), or an `anyhow` error was
propagated with the given context message. -/
inductive RunError where
  | panicked
  | failure (msg : String)
deriving DecidableEq, Repr

/-- The loop body for one decoded document (src/src/main.rs lines 96-105):
take the next sink index from the cycle iterator (`unwrap` panics if it is
exhausted), write the document to that sink (`?` aborts on failure), increment
`writes`, and flush every sink when `writes` is a multiple of `AUTO_FLUSH`.
Returns the result together with the state after the iteration (on failure,
the state at the point of the abort). -/
def writeDoc (env : Env) (st : LoopState) (d : BDoc) : Except RunError Unit × LoopState :=
  match cycleNext st.output.length st.cycleIdx with
  | none => (.error .panicked, st)
  | some file_index =>
    if env.writeOk st.writes then
      let out1 := st.output.set file_index ((st.output.getD file_index ⟨[], []⟩).write d)
      let st1 : LoopState := ⟨out1, st.cycleIdx + 1, st.writes + 1, st.flushes⟩
      if st1.writes % AUTO_FLUSH = 0 then
        let r := flush_all env st1.flushes st1.output
        match r.1 with
        | .ok _ => (.ok (), ⟨r.2.1, st1.cycleIdx, st1.writes, r.2.2⟩)
        | .error msg => (.error (.failure msg), ⟨r.2.1, st1.cycleIdx, st1.writes, r.2.2⟩)
      else (.ok (), st1)
    else (.error (.failure "Failed to write document"),
          ⟨st.output, st.cycleIdx + 1, st.writes, st.flushes⟩)

/-- The writing half of the main loop (src/src/main.rs lines 95-109): process
the successfully decoded documents in order; when they are exhausted, `term`
says how the document source ended — cleanly (`break` out of the loop) or with
a decode error that the `?` on `process_doc` propagates. -/
def runDocs (env : Env) (st : LoopState) (docs : List BDoc) (term : Except String Unit) :
    Except RunError Unit × LoopState :=
  match docs with
  | [] =>
    match term with
    | .ok _ => (.ok (), st)
    | .error msg => (.error (.failure msg), st)
  | d :: rest =>
    let r := writeDoc env st d
    match r.1 with
    | .ok _ => runDocs env r.2 rest term
    | .error e => (.error e, r.2)

/-- The initial loop state: `split` freshly created, empty sinks. -/
def initState (split : Nat) : LoopState := ⟨List.replicate split ⟨[], []⟩, 0, 0, 0⟩

/-- The observable outcome of a run of `main`:
* `usageError` — `validate` exited the process before any file was touched;
* `fatal e st created` — an error aborted the run after the output files
  `created` had been created, leaving the sinks in state `st`; nothing is
  printed to standard output;
* `ok st created printed` — the run succeeded, `printed` is the list of lines
  emitted to standard output (one path per line, in creation order). -/
inductive Outcome where
  | usageError
  | fatal (e : RunError) (st : LoopState) (created : List String)
  | ok (st : LoopState) (created : List String) (printed : List String)
deriving DecidableEq, Repr

/-- The output files created during the run. -/
def Outcome.created : Outcome → List String
  | .usageError => []
  | .fatal _ _ c => c
  | .ok _ c _ => c

/-- The lines printed to standard output (src/src/main.rs line 112 is reached
only after the final `flush_all` on line 111 succeeded). -/
def Outcome.printed : Outcome → List String
  | .usageError => []
  | .fatal _ _ _ => []
  | .ok _ _ p => p

/-- Whether the run ended in the cycle-iterator `unwrap` panic. -/
def Outcome.isPanic : Outcome → Bool
  | .fatal .panicked _ _ => true
  | _ => false

/-- Whether the run succeeded. -/
def Outcome.isOk : Outcome → Bool
  | .ok _ _ _ => true
  | _ => false

/-- src/src/main.rs lines 70-115: validate the flag, create the output files,
run the decode/distribute loop, perform the final unconditional `flush_all`,
and only then print the created paths. `stem` and `runtime` stand for the
prefix extracted from the input path and the epoch-millis captured at run
start; `input` is the byte content of the input file. -/
def main (env : Env) (split : Nat) (stem : String) (runtime : Nat)
    (input : List UInt8) : Outcome :=
  if validate split then .usageError
  else
    let paths := create_files stem runtime split
    let s := docStream input
    let r := runDocs env (initState split) s.1 s.2
    match r.1 with
    | .error e => .fatal e r.2 paths
    | .ok _ =>
      let fr := flush_all env r.2.flushes r.2.output
      match fr.1 with
      | .error msg => .fatal (.failure msg) ⟨fr.2.1, r.2.cycleIdx, r.2.writes, fr.2.2⟩ paths
      | .ok _ => .ok ⟨fr.2.1, r.2.cycleIdx, r.2.writes, fr.2.2⟩ paths paths

instance {ε α : Type} [DecidableEq ε] [DecidableEq α] : DecidableEq (Except ε α) := fun x y =>
  match x, y with
  | .ok a, .ok b =>
    if h : a = b then .isTrue (congrArg Except.ok h)
    else .isFalse (fun hc => h (Except.ok.inj hc))
  | .error e, .error f =>
    if h : e = f then .isTrue (congrArg Except.error h)
    else .isFalse (fun hc => h (Except.error.inj hc))
  | .ok _, .error _ => .isFalse (fun hc => Except.noConfusion hc)
  | .error _, .ok _ => .isFalse (fun hc => Except.noConfusion hc)

/-- `c` is exactly the encoding of one well-formed BSON document: its declared
length equals its actual length (which is at least the 5-byte minimum) and it
ends with the terminator byte. -/
def IsDocBytes (c : List UInt8) : Prop :=
  5 ≤ c.length ∧ declaredLen c = c.length ∧ c.getLast? = some 0

instance (c : List UInt8) : Decidable (IsDocBytes c) :=
  inferInstanceAs (Decidable (5 ≤ c.length ∧ declaredLen c = c.length ∧ c.getLast? = some 0))

/-- `t` is a partial document at the end of the stream: the 4-byte length
prefix is present and declares a plausible document length, but fewer bytes
than that declared length are available. -/
def TruncatedDoc (t : List UInt8) : Prop :=
  4 ≤ t.length ∧ 5 ≤ declaredLen t ∧ t.length < declaredLen t

instance (t : List UInt8) : Decidable (TruncatedDoc t) :=
  inferInstanceAs (Decidable (4 ≤ t.length ∧ 5 ≤ declaredLen t ∧ t.length < declaredLen t))

theorem from_reader_chunk {c : List UInt8} (rest : List UInt8) (hc : IsDocBytes c) :
    from_reader (c ++ rest) = .ok (⟨c⟩, rest) := by
  obtain ⟨h5, hlen, hterm⟩ := hc
  have hdcl : declaredLen (c ++ rest) = declaredLen c := by
    unfold declaredLen
    rw [List.getD_append _ _ _ _ (by omega), List.getD_append _ _ _ _ (by omega),
        List.getD_append _ _ _ _ (by omega), List.getD_append _ _ _ _ (by omega)]
  unfold from_reader
  rw [hdcl, hlen, List.length_append, if_neg (by omega), if_neg (by omega),
      if_neg (by omega), if_neg (by omega), List.take_left, if_pos hterm, List.drop_left]

theorem from_reader_truncated {t : List UInt8} (ht : TruncatedDoc t) :
    from_reader t = .error .truncated := by
  obtain ⟨h4, h5, hlt⟩ := ht
  unfold from_reader
  rw [if_neg (by omega), if_neg (by omega), if_neg (by omega), if_pos hlt]

theorem docStream_eq_some {input : List UInt8} {d : BDoc} {rest : List UInt8}
    (h : from_reader input = .ok (d, rest)) :
    docStream input = (d :: (docStream rest).1, (docStream rest).2) := by
  have hp : process_doc (from_reader input) = .ok (some (d, rest)) := by rw [h]; rfl
  rw [docStream]
  split
  · rename_i d2 rest2 heq
    rw [hp] at heq
    injection heq with heq2
    injection heq2 with heq3
    injection heq3 with hd hr
    rw [hd, hr]
  · rename_i heq
    rw [hp] at heq
    exact absurd (Except.ok.inj heq) (by intro hc; exact Option.noConfusion hc)
  · rename_i msg heq
    rw [hp] at heq
    exact Except.noConfusion heq

theorem docStream_eq_err {input : List UInt8} {msg : String}
    (h : process_doc (α := BDoc × List UInt8) (from_reader input) = .error msg) :
    docStream input = ([], .error msg) := by
  rw [docStream]
  split
  · rename_i d2 rest2 heq
    rw [h] at heq
    exact Except.noConfusion heq
  · rename_i heq
    rw [h] at heq
    exact Except.noConfusion heq
  · rename_i msg2 heq
    rw [h] at heq
    rw [Except.error.inj heq]

theorem docStream_nil : docStream [] = ([], .ok ()) := by
  rw [docStream]
  split
  · rename_i d2 rest2 heq
    exact absurd (Except.ok.inj heq) (by intro hc; exact Option.noConfusion hc)
  · rfl
  · rename_i msg heq
    exact Except.noConfusion heq

theorem docStream_chunk {c : List UInt8} (rest : List UInt8) (hc : IsDocBytes c) :
    docStream (c ++ rest) = ((⟨c⟩ : BDoc) :: (docStream rest).1, (docStream rest).2) :=
  docStream_eq_some (from_reader_chunk rest hc)

theorem docStream_truncated {t : List UInt8} (ht : TruncatedDoc t) :
    docStream t = ([], .error "BSON error") :=
  docStream_eq_err (by rw [from_reader_truncated ht]; rfl)

theorem docStream_chunks (chunks : List (List UInt8)) (tail : List UInt8)
    (hc : ∀ c ∈ chunks, IsDocBytes c) :
    docStream (chunks.flatten ++ tail)
      = (chunks.map (fun c => (⟨c⟩ : BDoc)) ++ (docStream tail).1, (docStream tail).2) := by
  induction chunks with
  | nil => simp
  | cons c cs ih =>
    rw [List.flatten_cons, List.append_assoc,
        docStream_chunk _ (hc c (List.mem_cons_self c cs)),
        ih (fun x hx => hc x (List.mem_cons_of_mem c hx))]
    simp

theorem docStream_single {c : List UInt8} (hc : IsDocBytes c) :
    docStream c = ([(⟨c⟩ : BDoc)], .ok ()) := by
  have h := docStream_chunk [] hc
  rw [List.append_nil] at h
  rw [h, docStream_nil]

theorem Sink.docs_flush (s : Sink) : s.flush.docs = s.docs := by
  simp [Sink.docs, Sink.flush]

theorem Sink.docs_write (s : Sink) (d : BDoc) : (s.write d).docs = s.docs ++ [d] := by
  simp [Sink.docs, Sink.write]

theorem Sink.buffered_flush (s : Sink) : s.flush.buffered = [] := rfl

theorem flush_all_length (env : Env) (bufs : List Sink) :
    ∀ fl, (flush_all env fl bufs).2.1.length = bufs.length := by
  induction bufs with
  | nil => intro fl; rfl
  | cons s rest ih =>
    intro fl
    unfold flush_all
    by_cases h : env.flushOk fl = true
    · rw [if_pos h]
      simp [ih (fl + 1)]
    · rw [if_neg h]

theorem flush_all_allOk (bufs : List Sink) :
    ∀ fl, flush_all Env.allOk fl bufs = (.ok (), bufs.map Sink.flush, fl + bufs.length) := by
  induction bufs with
  | nil => intro fl; rfl
  | cons s rest ih =>
    intro fl
    unfold flush_all
    rw [if_pos (show Env.allOk.flushOk fl = true from rfl), ih (fl + 1)]
    simp only [List.map_cons, List.length_cons]
    have harith : fl + 1 + rest.length = fl + (rest.length + 1) := by omega
    rw [harith]

theorem flush_all_ok_out (env : Env) (bufs : List Sink) :
    ∀ fl, (flush_all env fl bufs).1 = .ok () → (flush_all env fl bufs).2.1 = bufs.map Sink.flush := by
  induction bufs with
  | nil => intro fl _; rfl
  | cons s rest ih =>
    intro fl h
    unfold flush_all at h ⊢
    by_cases hok : env.flushOk fl = true
    · rw [if_pos hok] at h ⊢
      simp only [List.map_cons]
      rw [ih (fl + 1) h]
    · rw [if_neg hok] at h
      exact Except.noConfusion h

theorem getD_set_self {α : Type} (l : List α) (i : Nat) (a d : α) (h : i < l.length) :
    (l.set i a).getD i d = a := by
  simp [List.getD_eq_getElem?_getD, List.getElem?_set_self, h]

theorem getD_set_ne {α : Type} (l : List α) (i j : Nat) (a d : α) (h : i ≠ j) :
    (l.set i a).getD j d = l.getD j d := by
  simp [List.getD_eq_getElem?_getD, List.getElem?_set_ne h]

theorem getD_set_write (out : List Sink) (fi : Nat) (d : BDoc) (j : Nat) (hfi : fi < out.length) :
    ((out.set fi ((out.getD fi ⟨[], []⟩).write d)).getD j ⟨[], []⟩).docs
      = (out.getD j ⟨[], []⟩).docs ++ (if fi = j then [d] else []) := by
  by_cases hj : fi = j
  · subst hj
    rw [if_pos rfl, getD_set_self _ _ _ _ hfi, Sink.docs_write]
  · rw [if_neg hj, List.append_nil, getD_set_ne _ _ _ _ _ hj]

theorem getD_map_flush (l : List Sink) :
    ∀ j, ((l.map Sink.flush).getD j ⟨[], []⟩).docs = (l.getD j ⟨[], []⟩).docs := by
  induction l with
  | nil => intro j; rfl
  | cons s rest ih =>
    intro j
    cases j with
    | zero => exact Sink.docs_flush s
    | succ j => exact ih j

theorem getD_replicate_sink (n j : Nat) :
    (List.replicate n (⟨[], []⟩ : Sink)).getD j ⟨[], []⟩ = ⟨[], []⟩ := by
  induction n generalizing j with
  | zero => cases j <;> rfl
  | succ k ih =>
    cases j with
    | zero => rfl
    | succ j => exact ih j

/-- The round-robin assignment: of the documents `docs`, those that land in
sink `j` when the cycle counter starts at `k`, in input order. With `k = 0`
this is exactly the spec's invariant: the `i`-th document (0-indexed `i`, so
1-indexed `i + 1`) goes to sink `i % N = ((i + 1) - 1) % N`. -/
def assignedFrom (N k : Nat) (docs : List BDoc) (j : Nat) : List BDoc :=
  match docs with
  | [] => []
  | d :: rest => (if k % N = j then [d] else []) ++ assignedFrom N (k + 1) rest j

theorem assignedFrom_mem {N j : Nat} {docs : List BDoc} {d : BDoc} :
    ∀ {k : Nat}, d ∈ assignedFrom N k docs j → d ∈ docs := by
  induction docs with
  | nil => intro k h; exact absurd h (List.not_mem_nil d)
  | cons a rest ih =>
    intro k h
    unfold assignedFrom at h
    rcases List.mem_append.mp h with h1 | h2
    · split at h1
      · rw [List.mem_singleton.mp h1]
        exact List.mem_cons_self a rest
      · exact absurd h1 (List.not_mem_nil d)
    · exact List.mem_cons_of_mem a (ih h2)

theorem sum_map_range_zero (c : Nat) :
    ∀ n m, n ≤ m → ((List.range n).map (fun j => if m = j then c else 0)).sum = 0 := by
  intro n
  induction n with
  | zero => intro m _; rfl
  | succ k ih =>
    intro m h
    rw [List.range_succ, List.map_append, List.sum_append, ih m (by omega)]
    simp [show m ≠ k by omega]

theorem sum_map_range_single (c : Nat) :
    ∀ n m, m < n → ((List.range n).map (fun j => if m = j then c else 0)).sum = c := by
  intro n
  induction n with
  | zero => intro m h; omega
  | succ k ih =>
    intro m h
    rw [List.range_succ, List.map_append, List.sum_append]
    by_cases hm : m = k
    · rw [hm, sum_map_range_zero c k k (le_refl k)]
      simp
    · rw [ih m (by omega)]
      simp [hm]

theorem sum_map_add {α : Type} (l : List α) (f g : α → Nat) :
    (l.map (fun x => f x + g x)).sum = (l.map f).sum + (l.map g).sum := by
  induction l with
  | nil => rfl
  | cons a t ih =>
    simp only [List.map_cons, List.sum_cons, ih]
    omega

theorem assignedFrom_sum {N : Nat} (hN : 1 ≤ N) (docs : List BDoc) :
    ∀ k, ((List.range N).map (fun j => (assignedFrom N k docs j).length)).sum = docs.length := by
  induction docs with
  | nil => intro k; simp [assignedFrom]
  | cons d rest ih =>
    intro k
    have hsplit : ∀ j, (assignedFrom N k (d :: rest) j).length
        = (if k % N = j then 1 else 0) + (assignedFrom N (k + 1) rest j).length := by
      intro j
      conv_lhs => rw [assignedFrom]
      rw [List.length_append]
      split <;> rfl
    simp only [hsplit]
    rw [sum_map_add, ih (k + 1),
        sum_map_range_single 1 N (k % N) (Nat.mod_lt k (by omega))]
    simp [Nat.add_comm]

theorem cycleNext_pos {n : Nat} (k : Nat) (hn : 1 ≤ n) : cycleNext n k = some (k % n) := by
  unfold cycleNext
  rw [if_neg (by omega)]

theorem writeDoc_allOk_eq (st : LoopState) (d : BDoc) (hN : 1 ≤ st.output.length) :
    writeDoc Env.allOk st d =
      if (st.writes + 1) % AUTO_FLUSH = 0 then
        (.ok (), ⟨(st.output.set (st.cycleIdx % st.output.length)
                    ((st.output.getD (st.cycleIdx % st.output.length) ⟨[], []⟩).write d)).map
                      Sink.flush,
                 st.cycleIdx + 1, st.writes + 1, st.flushes + st.output.length⟩)
      else
        (.ok (), ⟨st.output.set (st.cycleIdx % st.output.length)
                    ((st.output.getD (st.cycleIdx % st.output.length) ⟨[], []⟩).write d),
                 st.cycleIdx + 1, st.writes + 1, st.flushes⟩) := by
  unfold writeDoc
  rw [cycleNext_pos st.cycleIdx hN]
  simp only
  rw [if_pos (show Env.allOk.writeOk st.writes = true from rfl)]
  by_cases hf : (st.writes + 1) % AUTO_FLUSH = 0
  · rw [if_pos hf, if_pos hf, flush_all_allOk]
    simp [List.length_set]
  · rw [if_neg hf, if_neg hf]

theorem runDocs_allOk (docs : List BDoc) :
    ∀ (st : LoopState) (term : Except String Unit), 1 ≤ st.output.length →
    (runDocs Env.allOk st docs term).1
        = (match term with | .ok _ => .ok () | .error msg => .error (.failure msg)) ∧
    (runDocs Env.allOk st docs term).2.output.length = st.output.length ∧
    ∀ j, ((runDocs Env.allOk st docs term).2.output.getD j ⟨[], []⟩).docs
        = (st.output.getD j ⟨[], []⟩).docs
          ++ assignedFrom st.output.length st.cycleIdx docs j := by
  induction docs with
  | nil =>
    intro st term hN
    cases term with
    | ok u =>
      refine ⟨rfl, rfl, ?_⟩
      intro j
      simp [runDocs, assignedFrom]
    | error msg =>
      refine ⟨rfl, rfl, ?_⟩
      intro j
      simp [runDocs, assignedFrom]
  | cons d rest ih =>
    intro st term hN
    have hrw : runDocs Env.allOk st (d :: rest) term
        = runDocs Env.allOk (writeDoc Env.allOk st d).2 rest term := by
      conv_lhs => rw [runDocs]
      rw [writeDoc_allOk_eq st d hN]
      by_cases hf : (st.writes + 1) % AUTO_FLUSH = 0
      · rw [if_pos hf]
      · rw [if_neg hf]
    set st1 := (writeDoc Env.allOk st d).2 with hst1
    have hlen1 : st1.output.length = st.output.length := by
      rw [hst1, writeDoc_allOk_eq st d hN]
      by_cases hf : (st.writes + 1) % AUTO_FLUSH = 0
      · rw [if_pos hf]
        simp [List.length_set]
      · rw [if_neg hf]
        simp [List.length_set]
    have hcyc1 : st1.cycleIdx = st.cycleIdx + 1 := by
      rw [hst1, writeDoc_allOk_eq st d hN]
      by_cases hf : (st.writes + 1) % AUTO_FLUSH = 0
      · rw [if_pos hf]
      · rw [if_neg hf]
    have hdocs1 : ∀ j, (st1.output.getD j ⟨[], []⟩).docs
        = (st.output.getD j ⟨[], []⟩).docs
          ++ (if st.cycleIdx % st.output.length = j then [d] else []) := by
      intro j
      rw [hst1, writeDoc_allOk_eq st d hN]
      by_cases hf : (st.writes + 1) % AUTO_FLUSH = 0
      · rw [if_pos hf]
        simp only
        rw [getD_map_flush, getD_set_write _ _ _ _ (Nat.mod_lt _ (by omega))]
      · rw [if_neg hf]
        simp only
        rw [getD_set_write _ _ _ _ (Nat.mod_lt _ (by omega))]
    obtain ⟨ih1, ih2, ih3⟩ := ih st1 term (by omega)
    refine ⟨by rw [hrw, ih1], by rw [hrw, ih2, hlen1], ?_⟩
    intro j
    rw [hrw, ih3 j, hdocs1 j, hcyc1, hlen1, List.append_assoc]
    conv_rhs => rw [assignedFrom]

theorem writeDoc_no_panic (env : Env) (st : LoopState) (d : BDoc)
    (hN : 1 ≤ st.output.length) :
    (writeDoc env st d).1 ≠ .error .panicked ∧
    (writeDoc env st d).2.output.length = st.output.length := by
  unfold writeDoc
  rw [cycleNext_pos st.cycleIdx hN]
  simp only
  by_cases hw : env.writeOk st.writes = true
  · rw [if_pos hw]
    by_cases hf : (st.writes + 1) % AUTO_FLUSH = 0
    · rw [if_pos hf]
      cases hfr : (flush_all env st.flushes
          (st.output.set (st.cycleIdx % st.output.length)
            ((st.output.getD (st.cycleIdx % st.output.length) ⟨[], []⟩).write d))).1 with
      | ok u =>
        simp only [hfr]
        refine ⟨by simp, ?_⟩
        rw [flush_all_length, List.length_set]
      | error msg =>
        simp only [hfr]
        refine ⟨by simp, ?_⟩
        rw [flush_all_length, List.length_set]
    · rw [if_neg hf]
      exact ⟨by simp, by simp [List.length_set]⟩
  · rw [if_neg hw]
    exact ⟨by simp, rfl⟩

theorem runDocs_no_panic (env : Env) (docs : List BDoc) :
    ∀ (st : LoopState) (term : Except String Unit), 1 ≤ st.output.length →
    (runDocs env st docs term).1 ≠ .error .panicked := by
  induction docs with
  | nil =>
    intro st term hN
    cases term with
    | ok u => simp [runDocs]
    | error msg => simp [runDocs]
  | cons d rest ih =>
    intro st term hN
    obtain ⟨hw1, hw2⟩ := writeDoc_no_panic env st d hN
    conv_lhs => rw [runDocs]
    cases hr : (writeDoc env st d).1 with
    | ok u =>
      simp only
      exact ih (writeDoc env st d).2 term (by omega)
    | error e =>
      simp only
      intro hc
      rw [hr] at hw1
      exact hw1 (by rw [Except.error.inj hc])

theorem validate_false {n : Nat} (h : 1 ≤ n) : validate n = false := by
  unfold validate
  simp
  omega

theorem initState_length (split : Nat) : (initState split).output.length = split := by
  simp [initState]

theorem main_allOk_eq (split : Nat) (stem : String) (rt : Nat) (input : List UInt8)
    (docs : List BDoc) (hN : 1 ≤ split) (hs : docStream input = (docs, .ok ())) :
    main Env.allOk split stem rt input
      = .ok ⟨(runDocs Env.allOk (initState split) docs (.ok ())).2.output.map Sink.flush,
             (runDocs Env.allOk (initState split) docs (.ok ())).2.cycleIdx,
             (runDocs Env.allOk (initState split) docs (.ok ())).2.writes,
             (runDocs Env.allOk (initState split) docs (.ok ())).2.flushes
               + (runDocs Env.allOk (initState split) docs (.ok ())).2.output.length⟩
          (create_files stem rt split) (create_files stem rt split) := by
  obtain ⟨hr1, hr2, hr3⟩ :=
    runDocs_allOk docs (initState split) (.ok ()) (by rw [initState_length]; omega)
  unfold main
  rw [validate_false hN]
  simp only [Bool.false_eq_true, if_false, hs]
  rw [hr1]
  simp only
  rw [flush_all_allOk]

theorem sum_map_getD {α : Type} (f : α → Nat) (dflt : α) :
    ∀ l : List α, (l.map f).sum
      = ((List.range l.length).map (fun j => f (l.getD j dflt))).sum := by
  intro l
  induction l with
  | nil => rfl
  | cons a t ih =>
    rw [List.length_cons, List.range_succ_eq_map, List.map_cons, List.sum_cons, List.map_cons,
        List.sum_cons, List.map_map]
    have hcomp : ((fun j => f ((a :: t).getD j dflt)) ∘ Nat.succ) = fun j => f (t.getD j dflt) := by
      funext j
      simp [List.getD_cons_succ]
    rw [hcomp, ← ih, List.getD_cons_zero]

/-- C1: an input stream that is a sequence of complete valid documents followed
by a partial document (fewer bytes available than its declared length) makes
the run terminate with the malformed-stream failure (the `"BSON error"` channel
of `process_doc`, not clean end-of-stream), and no partial document is written
to any sink: every document in every sink is one of the complete documents,
and in particular its bytes are not the partial tail. -/
theorem c1_truncation_detection (split : Nat) (stem : String) (rt : Nat)
    (chunks : List (List UInt8)) (tail : List UInt8)
    (hc : ∀ c ∈ chunks, IsDocBytes c) (ht : TruncatedDoc tail) (hN : 1 ≤ split) :
    ∃ st : LoopState,
      main Env.allOk split stem rt (chunks.flatten ++ tail)
        = .fatal (.failure "BSON error") st (create_files stem rt split) ∧
      ∀ s ∈ st.output, ∀ d ∈ s.docs, d.bytes ∈ chunks ∧ d.bytes ≠ tail := by
  have hds : docStream (chunks.flatten ++ tail)
      = (chunks.map (fun c => (⟨c⟩ : BDoc)), .error "BSON error") := by
    rw [docStream_chunks chunks tail hc, docStream_truncated ht]
    simp
  obtain ⟨hr1, hr2, hr3⟩ := runDocs_allOk (chunks.map (fun c => (⟨c⟩ : BDoc)))
    (initState split) (.error "BSON error") (by rw [initState_length]; omega)
  refine ⟨(runDocs Env.allOk (initState split) (chunks.map (fun c => (⟨c⟩ : BDoc)))
      (.error "BSON error")).2, ?_, ?_⟩
  · simp only [main, validate_false hN, Bool.false_eq_true, if_false, hds]
    rw [hr1]
  · intro s hs d hd
    obtain ⟨j, hj, hsj⟩ := List.mem_iff_getElem.mp hs
    have hgd : (runDocs Env.allOk (initState split) (chunks.map (fun c => (⟨c⟩ : BDoc)))
        (.error "BSON error")).2.output.getD j ⟨[], []⟩ = s := by
      rw [List.getD_eq_getElem _ _ hj, hsj]
    have hdocs : s.docs = assignedFrom split 0 (chunks.map (fun c => (⟨c⟩ : BDoc))) j := by
      rw [← hgd, hr3 j]
      have h0 : (initState split).output.getD j ⟨[], []⟩ = ⟨[], []⟩ := getD_replicate_sink split j
      rw [h0, initState_length]
      exact List.nil_append _
    rw [hdocs] at hd
    have hmem := assignedFrom_mem hd
    obtain ⟨c, hcmem, hceq⟩ := List.mem_map.mp hmem
    have hbytes : d.bytes = c := by rw [← hceq]
    constructor
    · rw [hbytes]; exact hcmem
    · intro hbad
      obtain ⟨_, hlen, _⟩ := hc c hcmem
      obtain ⟨_, _, hlt⟩ := ht
      rw [show c = tail from by rw [← hbytes, hbad]] at hlen
      omega

/-- C2: for a valid input whose successfully decoded documents are `docs` and
any fan-out `split ≥ 1`, the run succeeds and sink `j` receives exactly the
documents assigned round-robin (the `i`-th document, 0-indexed, lands in sink
`i % split`, i.e. 1-indexed document `i` in sink `(i-1) mod split`), in input
order (`assignedFrom` keeps the input order within each sink). -/
theorem c2_round_robin_assignment (split : Nat) (stem : String) (rt : Nat)
    (input : List UInt8) (docs : List BDoc)
    (hN : 1 ≤ split) (hs : docStream input = (docs, .ok ())) :
    ∃ st : LoopState,
      main Env.allOk split stem rt input
        = .ok st (create_files stem rt split) (create_files stem rt split) ∧
      st.output.length = split ∧
      ∀ j, (st.output.getD j ⟨[], []⟩).docs = assignedFrom split 0 docs j := by
  obtain ⟨hr1, hr2, hr3⟩ :=
    runDocs_allOk docs (initState split) (.ok ()) (by rw [initState_length]; omega)
  refine ⟨_, main_allOk_eq split stem rt input docs hN hs, ?_, ?_⟩
  · simp only [List.length_map]
    rw [hr2, initState_length]
  · intro j
    simp only
    rw [getD_map_flush, hr3 j]
    have h0 : (initState split).output.getD j ⟨[], []⟩ = ⟨[], []⟩ := getD_replicate_sink split j
    rw [h0, initState_length]
    exact List.nil_append _

/-- C3: for a valid input whose successfully decoded documents are `docs` and
any fan-out `split ≥ 1`, the run succeeds and the document counts of the
`split` sinks sum to the number of decoded documents (each document is written
to exactly one sink). -/
theorem c3_count_preservation (split : Nat) (stem : String) (rt : Nat)
    (input : List UInt8) (docs : List BDoc)
    (hN : 1 ≤ split) (hs : docStream input = (docs, .ok ())) :
    ∃ st : LoopState,
      main Env.allOk split stem rt input
        = .ok st (create_files stem rt split) (create_files stem rt split) ∧
      (st.output.map (fun s => s.docs.length)).sum = docs.length := by
  obtain ⟨hr1, hr2, hr3⟩ :=
    runDocs_allOk docs (initState split) (.ok ()) (by rw [initState_length]; omega)
  refine ⟨_, main_allOk_eq split stem rt input docs hN hs, ?_⟩
  dsimp only
  rw [sum_map_getD (fun s : Sink => s.docs.length) (⟨[], []⟩ : Sink)]
  have hlen : ((runDocs Env.allOk (initState split) docs (.ok ())).2.output.map
      Sink.flush).length = split := by
    simp only [List.length_map]
    rw [hr2, initState_length]
  rw [hlen]
  have hgd : ∀ j, (((runDocs Env.allOk (initState split) docs
      (.ok ())).2.output.map Sink.flush).getD j ⟨[], []⟩).docs
      = assignedFrom split 0 docs j := by
    intro j
    rw [getD_map_flush, hr3 j]
    have h0 : (initState split).output.getD j ⟨[], []⟩ = ⟨[], []⟩ := getD_replicate_sink split j
    rw [h0, initState_length]
    exact List.nil_append _
  simp only [hgd]
  exact assignedFrom_sum hN docs 0

/-- C4: an input consisting of zero or more complete, back-to-back valid
documents followed by nothing terminates successfully: the decoder's terminal
outcome is the clean `no more documents` signal (not an error), and `main`
returns the success outcome. -/
theorem c4_clean_eof_success (split : Nat) (stem : String) (rt : Nat)
    (chunks : List (List UInt8))
    (hc : ∀ c ∈ chunks, IsDocBytes c) (hN : 1 ≤ split) :
    (docStream chunks.flatten).2 = .ok () ∧
    ∃ st : LoopState, main Env.allOk split stem rt chunks.flatten
      = .ok st (create_files stem rt split) (create_files stem rt split) := by
  have hds : docStream chunks.flatten = (chunks.map (fun c => (⟨c⟩ : BDoc)), .ok ()) := by
    have h := docStream_chunks chunks [] hc
    rw [List.append_nil] at h
    rw [h, docStream_nil]
    simp
  exact ⟨by rw [hds], _, main_allOk_eq split stem rt _ _ hN hds⟩

/-- C5: one iteration of the loop body on a successful write takes the total
write counter from `w` to `w + 1`; when that new count is a (necessarily
positive, as the counter starts at 0 and the check happens after the
increment) multiple of the fixed threshold `AUTO_FLUSH = 100000`, all `N`
sinks are flushed before the next document is processed (every buffer is empty
and the per-sink flush-call counter advanced by `N`); at a non-multiple no
flush at all is triggered (the flush-call counter is unchanged). -/
theorem c5_periodic_flush (st : LoopState) (d : BDoc)
    (h0 : 0 ≤ st.writes) (hN : 1 ≤ st.output.length) :
    ∃ st2 : LoopState, writeDoc Env.allOk st d = (.ok (), st2) ∧
      st2.writes = st.writes + 1 ∧ 0 < st2.writes ∧
      (st2.writes % AUTO_FLUSH = 0 →
        (∀ s ∈ st2.output, s.buffered = []) ∧
        st2.flushes = st.flushes + st.output.length) ∧
      (¬ st2.writes % AUTO_FLUSH = 0 →
        st2.flushes = st.flushes ∧ st2.output.length = st.output.length) := by
  rw [writeDoc_allOk_eq st d hN]
  by_cases hf : (st.writes + 1) % AUTO_FLUSH = 0
  · rw [if_pos hf]
    refine ⟨_, rfl, rfl, by show (0:Int) < st.writes + 1; omega, ?_, ?_⟩
    · intro _
      refine ⟨?_, rfl⟩
      intro s hsmem
      obtain ⟨t, _, hts⟩ := List.mem_map.mp hsmem
      rw [← hts]
      rfl
    · intro hbad
      exact absurd hf hbad
  · rw [if_neg hf]
    refine ⟨_, rfl, rfl, by show (0:Int) < st.writes + 1; omega, ?_, ?_⟩
    · intro hgood
      exact absurd hgood hf
    · intro _
      exact ⟨rfl, by simp [List.length_set]⟩

/-- C6: fan-out 0 makes `validate` exit with the usage error before any output
file is created (the outcome carries no created files), while every fan-out
`≥ 1` passes validation (the run never ends in the usage-error exit). -/
theorem c6_fanout_validation (env : Env) (split : Nat) (stem : String) (rt : Nat)
    (input : List UInt8) :
    (split = 0 → main env split stem rt input = .usageError ∧
      (main env split stem rt input).created = []) ∧
    (1 ≤ split → validate split = false ∧ main env split stem rt input ≠ .usageError) := by
  constructor
  · intro h0
    subst h0
    have hv : validate 0 = true := rfl
    exact ⟨by simp [main, hv], by simp [main, hv, Outcome.created]⟩
  · intro h1
    refine ⟨validate_false h1, ?_⟩
    simp only [main, validate_false h1, Bool.false_eq_true, if_false]
    split
    · simp
    · split
      · simp
      · simp

/-- C7: whenever a run of `main` returns the success outcome — which requires
the final unconditional `flush_all` after the loop to have succeeded — every
sink's buffer is empty: every buffered document reached its sink, regardless
of how far the write count was from the periodic threshold. -/
theorem c7_final_flush (env : Env) (split : Nat) (stem : String) (rt : Nat)
    (input : List UInt8) (st : LoopState) (c p : List String)
    (h : main env split stem rt input = .ok st c p) :
    ∀ s ∈ st.output, s.buffered = [] := by
  simp only [main] at h
  by_cases hv : validate split = true
  · rw [if_pos hv] at h
    exact absurd h (by simp)
  · rw [if_neg hv] at h
    split at h
    · exact absurd h (by simp)
    · split at h
      · exact absurd h (by simp)
      · rename_i u r hrun u2 hfl
        injection h with h1 h2 h3
        intro s hsmem
        rw [← h1] at hsmem
        simp only at hsmem
        rw [flush_all_ok_out _ _ _ hfl] at hsmem
        obtain ⟨t, _, hts⟩ := List.mem_map.mp hsmem
        rw [← hts]
        rfl

/-- C8: `create_files` creates exactly `split` output files; the `k`-th
(0-indexed) is named `stem-runtime-(k+1).bson`, with the single `runtime`
epoch-millis value (captured once at run start) shared by all names; and on a
successful run the created paths are exactly what is printed, in creation
order. -/
theorem c8_output_naming (stem : String) (rt split : Nat) :
    (create_files stem rt split).length = split ∧
    (∀ k, k < split → (create_files stem rt split).getD k ""
        = stem ++ "-" ++ toString rt ++ "-" ++ toString (k + 1) ++ ".bson") ∧
    (∀ env input st c p, main env split stem rt input = .ok st c p →
      c = create_files stem rt split ∧ p = create_files stem rt split) := by
  refine ⟨by simp [create_files], ?_, ?_⟩
  · intro k hk
    unfold create_files
    rw [List.getD_eq_getElem?_getD]
    simp [List.getElem?_map, List.getElem?_range hk]
  · intro env input st c p h
    simp only [main] at h
    by_cases hv : validate split = true
    · rw [if_pos hv] at h
      exact absurd h (by simp)
    · rw [if_neg hv] at h
      split at h
      · exact absurd h (by simp)
      · split at h
        · exact absurd h (by simp)
        · injection h with h1 h2 h3
          exact ⟨h2.symm, h3.symm⟩

/-- C9: with fan-out `split ≥ 1` (guaranteed by `validate` before the loop),
the cycle iterator always yields a next index, that index is `k % split` on
the `k`-th call and lies in `[0, split)`, and consequently no run of `main`
ever ends in the `unwrap` panic on the cycle iterator. -/
theorem c9_cycle_never_fails (env : Env) (split k : Nat) (stem : String) (rt : Nat)
    (input : List UInt8) (hN : 1 ≤ split) :
    (cycleNext split k = some (k % split) ∧ k % split < split) ∧
    (main env split stem rt input).isPanic = false := by
  refine ⟨⟨cycleNext_pos k hN, Nat.mod_lt k (by omega)⟩, ?_⟩
  simp only [main, validate_false hN, Bool.false_eq_true, if_false]
  split
  · rename_i e heq
    have hnp := runDocs_no_panic env (docStream input).1 (initState split)
      (docStream input).2 (by rw [initState_length]; omega)
    cases e with
    | panicked => exact absurd heq hnp
    | failure msg => rfl
  · split
    · rfl
    · rfl

/-- C10: if the run does not succeed — a usage error, a decode error, a write
error, or a flush error including the final flush — then nothing at all is
printed to standard output: the path list is emitted only after the final
unconditional `flush_all` has succeeded. -/
theorem c10_no_paths_on_failure (env : Env) (split : Nat) (stem : String) (rt : Nat)
    (input : List UInt8) (h : (main env split stem rt input).isOk = false) :
    (main env split stem rt input).printed = [] := by
  cases hm : main env split stem rt input with
  | usageError => rfl
  | fatal e st c => rfl
  | ok st c p =>
    rw [hm] at h
    exact absurd h (by simp [Outcome.isOk])

theorem main_allOk_nil_eval :
    main Env.allOk 1 "a" 0 [] = .ok ⟨[⟨[], []⟩], 0, 0, 1⟩ ["a-0-1.bson"] ["a-0-1.bson"] := by
  have h := main_allOk_eq 1 "a" 0 [] [] (by omega) docStream_nil
  rw [h]
  rfl

theorem main_noFlush_nil_eval :
    main Env.noFlush 1 "a" 0 []
      = .fatal (.failure "Failed to flush") ⟨[⟨[], []⟩], 0, 0, 1⟩ ["a-0-1.bson"] := by
  simp only [main]
  rw [docStream_nil]
  rfl

theorem c1_witness :
    ∃ st : LoopState,
      main Env.allOk 1 "a" 0
          (([[5, 0, 0, 0, 0]] : List (List UInt8)).flatten ++ [6, 0, 0, 0, 0])
        = .fatal (.failure "BSON error") st (create_files "a" 0 1) ∧
      ∀ s ∈ st.output, ∀ d ∈ s.docs,
        d.bytes ∈ ([[5, 0, 0, 0, 0]] : List (List UInt8)) ∧ d.bytes ≠ [6, 0, 0, 0, 0] :=
  c1_truncation_detection 1 "a" 0 [[5, 0, 0, 0, 0]] [6, 0, 0, 0, 0]
    (by decide) (by decide) (by omega)

theorem c2_witness :
    ∃ st : LoopState,
      main Env.allOk 2 "a" 0 [5, 0, 0, 0, 0]
        = .ok st (create_files "a" 0 2) (create_files "a" 0 2) ∧
      st.output.length = 2 ∧
      ∀ j, (st.output.getD j ⟨[], []⟩).docs = assignedFrom 2 0 [⟨[5, 0, 0, 0, 0]⟩] j :=
  c2_round_robin_assignment 2 "a" 0 [5, 0, 0, 0, 0] [⟨[5, 0, 0, 0, 0]⟩] (by omega)
    (docStream_single (by decide))

theorem c3_witness :
    ∃ st : LoopState,
      main Env.allOk 2 "b" 7 [5, 0, 0, 0, 0]
        = .ok st (create_files "b" 7 2) (create_files "b" 7 2) ∧
      (st.output.map (fun s => s.docs.length)).sum = ([(⟨[5, 0, 0, 0, 0]⟩ : BDoc)]).length :=
  c3_count_preservation 2 "b" 7 [5, 0, 0, 0, 0] [⟨[5, 0, 0, 0, 0]⟩] (by omega)
    (docStream_single (by decide))

theorem c4_witness :
    (docStream ([] : List (List UInt8)).flatten).2 = .ok () ∧
    ∃ st : LoopState, main Env.allOk 3 "a" 0 ([] : List (List UInt8)).flatten
      = .ok st (create_files "a" 0 3) (create_files "a" 0 3) :=
  c4_clean_eof_success 3 "a" 0 [] (by simp) (by omega)

theorem c5_witness :
    ∃ st2 : LoopState,
      writeDoc Env.allOk ⟨[⟨[], []⟩], 0, 99999, 0⟩ ⟨[5, 0, 0, 0, 0]⟩ = (.ok (), st2) ∧
      st2.writes = 99999 + 1 ∧ 0 < st2.writes ∧
      (st2.writes % AUTO_FLUSH = 0 →
        (∀ s ∈ st2.output, s.buffered = []) ∧ st2.flushes = 0 + 1) ∧
      (¬ st2.writes % AUTO_FLUSH = 0 → st2.flushes = 0 ∧ st2.output.length = 1) :=
  c5_periodic_flush ⟨[⟨[], []⟩], 0, 99999, 0⟩ ⟨[5, 0, 0, 0, 0]⟩ (by decide) (by decide)

theorem c6_witness :
    main Env.allOk 0 "a" 0 [] = .usageError ∧ (main Env.allOk 0 "a" 0 []).created = [] :=
  (c6_fanout_validation Env.allOk 0 "a" 0 []).1 rfl

theorem c7_witness : (⟨[], []⟩ : Sink).buffered = [] :=
  c7_final_flush Env.allOk 1 "a" 0 [] ⟨[⟨[], []⟩], 0, 0, 1⟩ ["a-0-1.bson"] ["a-0-1.bson"]
    main_allOk_nil_eval ⟨[], []⟩ (by simp)

theorem c8_witness :
    (create_files "a" 0 1).length = 1 ∧
    (create_files "a" 0 1).getD 0 ""
      = "a" ++ "-" ++ toString 0 ++ "-" ++ toString (0 + 1) ++ ".bson" ∧
    (["a-0-1.bson"] = create_files "a" 0 1 ∧ ["a-0-1.bson"] = create_files "a" 0 1) :=
  ⟨(c8_output_naming "a" 0 1).1,
   (c8_output_naming "a" 0 1).2.1 0 (by decide),
   (c8_output_naming "a" 0 1).2.2 Env.allOk [] ⟨[⟨[], []⟩], 0, 0, 1⟩ ["a-0-1.bson"]
     ["a-0-1.bson"] main_allOk_nil_eval⟩

theorem c9_witness :
    (cycleNext 1 5 = some (5 % 1) ∧ 5 % 1 < 1) ∧
    (main Env.allOk 1 "a" 0 []).isPanic = false :=
  c9_cycle_never_fails Env.allOk 1 5 "a" 0 [] (by omega)

theorem c10_witness : (main Env.noFlush 1 "a" 0 []).printed = [] :=
  c10_no_paths_on_failure Env.noFlush 1 "a" 0 [] (by rw [main_noFlush_nil_eval]; rfl)

end BsonSplit
